import Mathlib

/-!
Verification of the `sema` evaluation harness against its specification.

Strings are modelled as `List Char`.  Python string operations used by the
repository (`str.lower`, `str.split`, `','.join`, `re.sub` with the article
pattern, `string.punctuation` filtering) are embedded as executable Lean
functions over `List Char`, following the source in
`src/benchmarks/measures.py`, `src/benchmarks/hotpotqa.py`,
`src/benchmarks/benchmark.py`, `src/models/base_model.py`,
`src/models/models.py`, `src/models/openai_model.py`,
`src/models/claude_model.py` and `src/models/ollama_model.py`.
-/

abbrev Str := List Char

/-- ASCII lower-casing of one character, modelling `str.lower` on the
alphabet fragment the repository's data uses (`A`..`Z` map to `a`..`z`,
everything else is unchanged). -/
def pyLowerChar (c : Char) : Char :=
  if 65 ≤ c.toNat ∧ c.toNat ≤ 90 then Char.ofNat (c.toNat + 32) else c

/-- Model of `lower` in `normalize_answer`: `text.lower()`. -/
def lower (s : Str) : Str := s.map pyLowerChar

/-- Membership in Python's `string.punctuation`
(ASCII codes 33-47, 58-64, 91-96, 123-126). -/
def isPunct (c : Char) : Bool :=
  (33 ≤ c.toNat && c.toNat ≤ 47) || (58 ≤ c.toNat && c.toNat ≤ 64) ||
  (91 ≤ c.toNat && c.toNat ≤ 96) || (123 ≤ c.toNat && c.toNat ≤ 126)

/-- Model of `remove_punc` in `normalize_answer`:
`''.join(ch for ch in text if ch not in set(string.punctuation))`. -/
def remove_punc (s : Str) : Str := s.filter (fun c => !isPunct c)

/-- Word characters of the regex `\b` boundary (`\w` = `[a-zA-Z0-9_]` on the
ASCII fragment). -/
def isWordChar (c : Char) : Bool :=
  (48 ≤ c.toNat && c.toNat ≤ 57) || (65 ≤ c.toNat && c.toNat ≤ 90) ||
  (97 ≤ c.toNat && c.toNat ≤ 122) || c.toNat == 95

/-- Whether a `\b` word boundary holds between a word character and the
start of `rest` (true at end of string or before a non-word character). -/
def wordBreak : Str → Bool
  | [] => true
  | c :: _ => !isWordChar c

/-- Whitespace for Python's `str.split()` (space, tab, newline, carriage
return, vertical tab, form feed). -/
def isPySpace (c : Char) : Bool :=
  c.toNat == 32 || c.toNat == 9 || c.toNat == 10 ||
  c.toNat == 13 || c.toNat == 11 || c.toNat == 12

/-- Left-to-right scan of `re.sub(r'\b(a|an|the)\b', ' ', text)`: the flag
records whether the previous character of the input was a word character
(so no `\b` boundary holds at the current position).  Each matched article
is replaced by a single space; the scan resumes after the match with the
flag set, because the last character of an article is a word character. -/
def removeArticlesGo : Bool → Str → Str
  | _, [] => []
  | prevW, 'a' :: 'n' :: rest =>
      if !prevW && wordBreak rest then ' ' :: removeArticlesGo true rest
      else 'a' :: removeArticlesGo true ('n' :: rest)
  | prevW, 'a' :: rest =>
      if !prevW && wordBreak rest then ' ' :: removeArticlesGo true rest
      else 'a' :: removeArticlesGo true rest
  | prevW, 't' :: 'h' :: 'e' :: rest =>
      if !prevW && wordBreak rest then ' ' :: removeArticlesGo true rest
      else 't' :: removeArticlesGo true ('h' :: 'e' :: rest)
  | _, c :: rest => c :: removeArticlesGo (isWordChar c) rest

/-- Model of `remove_articles` in `normalize_answer`:
`re.sub(r'\b(a|an|the)\b', ' ', text)` (at the start of the string no word
character precedes, so the boundary flag starts false). -/
def remove_articles (s : Str) : Str := removeArticlesGo false s

/-- Helper for `pySplit`: returns the run of non-whitespace characters at
the head of the string together with the list of maximal non-whitespace
runs in the remainder. -/
def splitWsCore : Str → Str × List Str
  | [] => ([], [])
  | c :: cs =>
      let r := splitWsCore cs
      if isPySpace c then ([], if r.1 = [] then r.2 else r.1 :: r.2)
      else (c :: r.1, r.2)

/-- Model of Python `text.split()` with no argument: the maximal runs of
non-whitespace characters, in order (empty runs never occur). -/
def pySplit (s : Str) : List Str :=
  let r := splitWsCore s
  if r.1 = [] then r.2 else r.1 :: r.2

/-- Model of Python `sep.join(parts)` for a one-character separator. -/
def joinSep (sep : Char) : List Str → Str
  | [] => []
  | [t] => t
  | t :: ts => t ++ sep :: joinSep sep ts

/-- Model of `white_space_fix` in `normalize_answer`:
`' '.join(text.split())`. -/
def white_space_fix (s : Str) : Str := joinSep ' ' (pySplit s)

/-- Model of `normalize_answer` in `src/benchmarks/measures.py`:
`white_space_fix(remove_articles(remove_punc(lower(s))))`. -/
def normalize_answer (s : Str) : Str :=
  white_space_fix (remove_articles (remove_punc (lower s)))

/-- Token list used by `f1_score`: `normalize_answer(x).split()`. -/
def get_tokens (s : Str) : List Str := pySplit (normalize_answer s)

/-- Size of the multiset intersection computed by
`Counter(prediction_tokens) & Counter(ground_truth_tokens)` followed by
`sum(common.values())`: each token counts with the minimum of its
multiplicities in the two lists. -/
def num_same (p g : List Str) : Nat :=
  Multiset.card ((↑p : Multiset Str) ∩ (↑g : Multiset Str))

/-- Precision as computed in `f1_score`:
`num_same / len(prediction_tokens) if prediction_tokens else 0`. -/
def f1_precision (prediction ground_truth : Str) : ℚ :=
  let prediction_tokens := get_tokens prediction
  let ground_truth_tokens := get_tokens ground_truth
  if prediction_tokens = [] then 0
  else (num_same prediction_tokens ground_truth_tokens : ℚ) / prediction_tokens.length

/-- Recall as computed in `f1_score`:
`num_same / len(ground_truth_tokens) if ground_truth_tokens else 0`. -/
def f1_recall (prediction ground_truth : Str) : ℚ :=
  let prediction_tokens := get_tokens prediction
  let ground_truth_tokens := get_tokens ground_truth
  if ground_truth_tokens = [] then 0
  else (num_same prediction_tokens ground_truth_tokens : ℚ) / ground_truth_tokens.length

/-- Model of `f1_score` in `src/benchmarks/measures.py` (exact rational
arithmetic stands in for Python floats). -/
def f1_score (prediction ground_truth : Str) : ℚ :=
  let prediction_tokens := get_tokens prediction
  let ground_truth_tokens := get_tokens ground_truth
  if num_same prediction_tokens ground_truth_tokens = 0 then 0
  else
    let prec := f1_precision prediction ground_truth
    let reca := f1_recall prediction ground_truth
    if prec + reca = 0 then 0
    else 2 * prec * reca / (prec + reca)

/-- Model of `exact_match_score` in `src/benchmarks/measures.py`:
`float(normalize_answer(prediction) == normalize_answer(ground_truth))`. -/
def exact_match_score (prediction ground_truth : Str) : ℚ :=
  if normalize_answer prediction = normalize_answer ground_truth then 1 else 0

/-- Whether the regex `\b(a|an|the)\b` matches at the start of `l`
(assuming a word boundary holds before `l`): one of the three article
words is present and is followed by a word boundary.  The alternation
order of the regex is irrelevant because the three disjuncts are mutually
exclusive (`a` needs a non-word continuation, `an` needs `n` next). -/
def startsArt (l : Str) : Bool :=
  (l.take 1 == ['a'] && wordBreak (l.drop 1)) ||
  (l.take 2 == ['a', 'n'] && wordBreak (l.drop 2)) ||
  (l.take 3 == ['t', 'h', 'e'] && wordBreak (l.drop 3))

/-- No position of `l` carries a match of `\b(a|an|the)\b`; the flag
records whether a word character immediately precedes `l` (which would
block a boundary at the first position). -/
def noArt : Bool → Str → Bool
  | _, [] => true
  | b, c :: cs => (b || !startsArt (c :: cs)) && noArt (isWordChar c) cs

/-- Verdict of one evaluated sample: `Benchmark.PASS` or `Benchmark.FAIL`
from `src/benchmarks/benchmark.py`. -/
inductive Verdict
  | PASS
  | FAIL
deriving DecidableEq

/-- One dataset record as consumed by `HotpotQA.run`: `item['question']`,
`item.get('context', [])`, `item['answer']`, `item.get('_id', i)`.  The
context type is abstract (`Ctx`); the optional `_id` field is a string
when present. -/
structure Sample (Ctx : Type) where
  question : Str
  context : Ctx
  answer : Str
  idtag : Option Str

/-- Per-sample result dictionary built by `HotpotQA.run`; `id` is
`item.get('_id', i)` (the sample index when the record has no `_id`), and
`error` is present exactly when the callback raised. -/
structure RunResult where
  rid : Sum Str Nat
  question : Str
  prediction : Str
  ground_truth : Str
  em : ℚ
  f1 : ℚ
  result : Verdict
  error : Option Str

/-- Model of `HotpotQA.evaluate`: coerces null inputs to empty strings,
scores exact match and F1, and passes iff the exact-match score is 1.0. -/
def evaluate (prediction label : Option Str) : ℚ × ℚ × Verdict :=
  let pred_str := prediction.getD []
  let label_str := label.getD []
  let em := exact_match_score pred_str label_str
  let f1 := f1_score pred_str label_str
  (em, f1, if em = 1 then Verdict.PASS else Verdict.FAIL)

/-- Result record built for sample number `i` in the loop body of
`HotpotQA.run`: the `try` branch on a callback success, the `except`
branch (zero scores, FAIL, error string attached) on a callback
exception.  The callback is modelled as returning `Except Str Str`:
`.ok prediction` for a normal return, `.error e` for a raised exception
with message `str(e) = e`. -/
def runStep {Ctx : Type} (cb : Str → Ctx → Except Str Str) (i : Nat)
    (item : Sample Ctx) : RunResult :=
  let rid : Sum Str Nat := match item.idtag with
    | some s => Sum.inl s
    | none => Sum.inr i
  match cb item.question item.context with
  | .ok prediction =>
      let ev := evaluate (some prediction) (some item.answer)
      { rid := rid, question := item.question, prediction := prediction,
        ground_truth := item.answer, em := ev.1, f1 := ev.2.1,
        result := ev.2.2, error := none }
  | .error e =>
      { rid := rid, question := item.question, prediction := [],
        ground_truth := item.answer, em := 0, f1 := 0,
        result := Verdict.FAIL, error := some e }

/-- The `for i, item in enumerate(data)` loop of `HotpotQA.run`: builds the
result list in order and accumulates `total_em`/`total_f1`, which are only
incremented in the success branch. -/
def runLoop {Ctx : Type} (cb : Str → Ctx → Except Str Str) :
    Nat → List (Sample Ctx) → List RunResult × ℚ × ℚ
  | _, [] => ([], 0, 0)
  | i, item :: rest =>
      let r := runStep cb i item
      let acc := runLoop cb (i + 1) rest
      match cb item.question item.context with
      | .ok _ => (r :: acc.1, r.em + acc.2.1, r.f1 + acc.2.2)
      | .error _ => (r :: acc.1, acc.2.1, acc.2.2)

/-- Aggregate metrics dictionary of `HotpotQA.run`. -/
structure RunMetrics where
  exact_match : ℚ
  f1 : ℚ
  num_samples : Nat
  num_passed : Nat
deriving DecidableEq

/-- Return value of `HotpotQA.run`: aggregated metrics plus the individual
results. -/
structure RunOutput where
  metrics : RunMetrics
  results : List RunResult

/-- Tail of `HotpotQA.run` after the dataset is selected and truncated:
runs the loop, then averages `total_em`/`total_f1` over the number of
results (0 if none) and counts PASS verdicts. -/
def runCore {Ctx : Type} (cb : Str → Ctx → Except Str Str)
    (data : List (Sample Ctx)) : RunOutput :=
  let acc := runLoop cb 0 data
  let n := acc.1.length
  { metrics :=
      { exact_match := if 0 < n then acc.2.1 / n else 0,
        f1 := if 0 < n then acc.2.2 / n else 0,
        num_samples := n,
        num_passed := acc.1.countP (fun r => r.result == Verdict.PASS) },
    results := acc.1 }

/-- Loaded partitions of a benchmark (`_train_data`, `_validate_data`,
`_test_data` in `src/benchmarks/benchmark.py`; a partition is null until
loaded). -/
structure BenchState (Ctx : Type) where
  train : Option (List (Sample Ctx))
  validate : Option (List (Sample Ctx))
  test : Option (List (Sample Ctx))

/-- The two `ValueError` failures of `HotpotQA.run`: an unrecognized
dataset name, or a selected partition that was never loaded. -/
inductive RunError
  | unknownDataset (name : Str)
  | datasetNotLoaded (name : Str)
deriving DecidableEq

/-- Model of `HotpotQA.run`: selects the partition by name (raising
`ValueError` for an unknown name), raises `ValueError` if the partition is
null, truncates to `num_samples` when given, then runs the evaluation
loop. -/
def HotpotQA_run {Ctx : Type} (cb : Str → Ctx → Except Str Str)
    (b : BenchState Ctx) (dataset : Str) (num_samples : Option Nat) :
    Except RunError RunOutput :=
  let sel : Except RunError (Option (List (Sample Ctx))) :=
    if dataset = String.toList "train" then .ok b.train
    else if dataset = String.toList "validate" then .ok b.validate
    else if dataset = String.toList "test" then .ok b.test
    else .error (.unknownDataset dataset)
  match sel with
  | .error e => .error e
  | .ok none => .error (.datasetNotLoaded dataset)
  | .ok (some data) =>
      let data := match num_samples with
        | some k => data.take k
        | none => data
      .ok (runCore cb data)

/-- One manifest entry of `benchmarks.json`: a file name and a source
URL. -/
structure DatasetInfo where
  dname : Str
  url : Str

/-- Model of `HotpotQA.load_dataset`.  The local file system is a map from
paths to parsed content (`none` = the file does not exist); `net url`
gives the content that downloading `url` would write.  Returns the parsed
records (or null for an absent manifest entry), the file system after the
call, and the list of URLs downloaded (empty means no network call was
made). -/
def load_dataset {J : Type} (data_folder : Str) (dataset : Option DatasetInfo)
    (force_reload : Bool) (fs : Str → Option J) (net : Str → J) :
    Option J × (Str → Option J) × List Str :=
  match dataset with
  | none => (none, fs, [])
  | some d =>
      let file_path := data_folder ++ '/' :: d.dname
      if (fs file_path).isNone || force_reload then
        let content := net d.url
        (some content, fun p => if p = file_path then some content else fs p, [d.url])
      else (fs file_path, fs, [])

/-- One parsed entry of `models.json` as read by `LLMConfig.load`: the
fields accessed through `entry.get(...)`, each possibly absent. -/
structure ConfigEntry where
  provider : Option Str
  ptype : Option Str
  description : Option Str
  base_url : Option Str
  api_key : Option Str
  temperature : Option ℚ

/-- Model of the `LLMConfig` dataclass fields as populated by
`LLMConfig.load` (which always supplies a temperature, defaulting to
1.0). -/
structure LLMConfig where
  cname : Str
  provider : Str
  description : Str
  base_url : Str
  api_key : Str
  temperature : ℚ

/-- Parsed content of a configuration file: the JSON object mapping model
keys to entries. -/
abbrev FileData := Str → Option ConfigEntry

/-- The two class-level caches of `LLMConfig`: `_file_cache` keyed by
resolved path and `_instance_cache` keyed by (path, model key). -/
structure CacheState (P : Type) where
  fileCache : P → Option FileData
  instCache : P → Str → Option LLMConfig

/-- The initial empty class-level caches. -/
def emptyCache (P : Type) : CacheState P :=
  { fileCache := fun _ => none, instCache := fun _ _ => none }

/-- The failures of `LLMConfig.load`: `FileNotFoundError` when the config
path is not a file, `ValueError` when the model key is absent. -/
inductive LoadError
  | fileNotFound
  | modelNotFound (model : Str)
deriving DecidableEq

/-- Instance construction in `LLMConfig.load`: `provider` falls back from
`provider` to `type` to the empty string, the other string fields default
to the empty string and `temperature` to 1.0. -/
def mkLLMConfig (model : Str) (entry : ConfigEntry) : LLMConfig :=
  { cname := model,
    provider := entry.provider.getD (entry.ptype.getD []),
    description := entry.description.getD [],
    base_url := entry.base_url.getD [],
    api_key := entry.api_key.getD [],
    temperature := entry.temperature.getD 1 }

/-- Model of `LLMConfig.load`.  `p` is the already-resolved config path;
`fs` maps a path to the parsed content of the file currently at that path
(`none` when `is_file()` is false).  The instance cache is consulted
first; on a miss the file must exist, its parsed content is cached (only
if not already cached — a stale file cache is reused), the model key is
looked up in the cached content and the built instance is cached and
returned together with the new cache state. -/
def LLMConfig_load {P : Type} [DecidableEq P] (model : Str) (p : P)
    (fs : P → Option FileData) (σ : CacheState P) :
    Except LoadError (LLMConfig × CacheState P) :=
  match σ.instCache p model with
  | some inst => .ok (inst, σ)
  | none =>
    match fs p with
    | none => .error .fileNotFound
    | some current =>
        let data : FileData :=
          match σ.fileCache p with
          | some d => d
          | none => current
        let σ1 : CacheState P :=
          { σ with fileCache := fun q => if q = p then some data else σ.fileCache q }
        match data model with
        | none => .error (.modelNotFound model)
        | some entry =>
            let inst := mkLLMConfig model entry
            .ok (inst,
              { σ1 with instCache := fun q m =>
                  if q = p ∧ m = model then some inst else σ1.instCache q m })

/-- Tags for the provider client classes of `AsyncLLM._provider_registry`;
`custom n` stands for externally registered client classes. -/
inductive ClientKind
  | openai
  | ollama
  | gemini
  | claude
  | custom (n : Nat)
deriving DecidableEq

/-- The built-in `_provider_registry` of `AsyncLLM`. -/
def builtinRegistry : Str → Option ClientKind := fun s =>
  if s = String.toList "openai" then some .openai
  else if s = String.toList "azure" then some .openai
  else if s = String.toList "azure_openai" then some .openai
  else if s = String.toList "ollama" then some .ollama
  else if s = String.toList "gemini" then some .gemini
  else if s = String.toList "google" then some .gemini
  else if s = String.toList "claude" then some .claude
  else if s = String.toList "anthropic" then some .claude
  else none

/-- Model of `AsyncLLM.register_provider`: stores the class under the
lower-cased provider name. -/
def register_provider (reg : Str → Option ClientKind) (provider : Str)
    (llm_class : ClientKind) : Str → Option ClientKind :=
  fun s => if s = lower provider then some llm_class else reg s

/-- Model of `AsyncLLM.__new__`: loads the configuration, lower-cases its
provider string, looks it up in the registry and falls back to the
OpenAI-compatible adapter (`AsyncOpenAILLM`) when the provider is
unknown; returns the chosen client class applied to the config. -/
def AsyncLLM_new {P : Type} [DecidableEq P] (reg : Str → Option ClientKind)
    (model : Str) (p : P) (fs : P → Option FileData) (σ : CacheState P) :
    Except LoadError (ClientKind × LLMConfig × CacheState P) :=
  match LLMConfig_load model p fs σ with
  | .error e => .error e
  | .ok (config, σ') =>
      .ok ((reg (lower config.provider)).getD ClientKind.openai, config, σ')

/-- Bounded retry of `tenacity.retry(reraise=True,
stop=stop_after_attempt(n), retry=retry_if_exception_type(Exception))`
around one provider call: `f i` is the outcome of the i-th underlying
call attempt (0-based).  On the last allowed attempt the outcome is
returned unchanged (`reraise=True` re-raises the final exception as is);
an earlier failed attempt is retried. -/
def retryCall {E A : Type} (f : Nat → Except E A) : Nat → Nat → Except E A
  | 0, i => f i
  | 1, i => f i
  | n + 2, i =>
      match f i with
      | .ok a => .ok a
      | .error _ => retryCall f (n + 1) (i + 1)

/-- The `@retry(..., stop=stop_after_attempt(3), ...)` decorator shared by
`AsyncOpenAILLM.__call__`, `AsyncAnthropicLLM.__call__` and
`AsyncOllamaLLM.__call__`: at most 3 attempts starting at attempt 0. -/
def invokeWithRetry {E A : Type} (f : Nat → Except E A) : Except E A :=
  retryCall f 3 0

/-- Python's substring test `sub in s` for strings as character lists. -/
def startsWithStr : Str → Str → Bool
  | [], _ => true
  | _ :: _, [] => false
  | a :: as, b :: bs => a == b && startsWithStr as bs

/-- Whether `sub` occurs as a contiguous substring of the second
argument. -/
def containsSub (sub : Str) : Str → Bool
  | [] => decide (sub = [])
  | c :: rest => startsWithStr sub (c :: rest) || containsSub sub rest

/-- Model of the `NO_PROXY` setup in `AsyncOllamaLLM.__init__` when no
client is injected: read `NO_PROXY` (empty when unset); only when neither
`'localhost'` nor `'127.0.0.1'` occurs as a substring of it, split it on
commas, drop empty entries, append the two loopback entries and write the
comma-joined list back; otherwise leave the environment untouched.  No
other variable is ever written. -/
def ollamaInitEnv (env : Str → Option Str) : Str → Option Str :=
  let no_proxy := (env (String.toList "NO_PROXY")).getD []
  if !containsSub (String.toList "localhost") no_proxy &&
      !containsSub (String.toList "127.0.0.1") no_proxy then
    let entries := (no_proxy.splitOn ',').filter (fun e => !e.isEmpty)
    let entries := entries ++ [String.toList "localhost", String.toList "127.0.0.1"]
    fun k => if k = String.toList "NO_PROXY" then some (joinSep ',' entries)
             else env k
  else env

section MeasureFacts

lemma get_tokens_abc : get_tokens (String.toList "a b c") = [['b'], ['c']] := by decide

lemma get_tokens_bcd :
    get_tokens (String.toList "b c d") = [['b'], ['c'], ['d']] := by decide

lemma num_same_abc_bcd : num_same [['b'], ['c']] [['b'], ['c'], ['d']] = 2 := by decide

/-- The claim id C1 states `f1("a b c", "b c d") = 0.5`.  It is false on the
code: normalization removes the article token `a`, so the prediction
tokenizes to `b c`, giving precision 1, recall 2/3 and F1 = 4/5, not 1/2. -/
theorem f1_abc_bcd_not_half :
    f1_score (String.toList "a b c") (String.toList "b c d") ≠ 1 / 2 := by
  have h2 : ([['b'], ['c']] : List Str) ≠ [] := by decide
  have h3 : ([['b'], ['c'], ['d']] : List Str) ≠ [] := by decide
  simp only [f1_score, f1_precision, f1_recall, get_tokens_abc, get_tokens_bcd,
    num_same_abc_bcd, if_neg h2, if_neg h3]
  norm_num

/-- C1 (amended): after normalization removes the article `a`, the
prediction `"a b c"` tokenizes to `b c`, so
`f1("a b c", "b c d") = 0.8` (precision 1, recall 2/3); and for the second
worked example `f1("light blue", "blue")` the precision is 0.5, the recall
is 1.0 and the F1 score is 2/3. -/
theorem f1_worked_examples :
    f1_score (String.toList "a b c") (String.toList "b c d") = 4 / 5 ∧
    f1_precision (String.toList "light blue") (String.toList "blue") = 1 / 2 ∧
    f1_recall (String.toList "light blue") (String.toList "blue") = 1 ∧
    f1_score (String.toList "light blue") (String.toList "blue") = 2 / 3 := by
  have hlb : get_tokens (String.toList "light blue") =
      [String.toList "light", String.toList "blue"] := by decide
  have hb : get_tokens (String.toList "blue") = [String.toList "blue"] := by decide
  have hn : num_same [String.toList "light", String.toList "blue"]
      [String.toList "blue"] = 1 := by decide
  have h2 : ([['b'], ['c']] : List Str) ≠ [] := by decide
  have h3 : ([['b'], ['c'], ['d']] : List Str) ≠ [] := by decide
  have h4 : ([String.toList "light", String.toList "blue"] : List Str) ≠ [] := by decide
  have h5 : ([String.toList "blue"] : List Str) ≠ [] := by decide
  refine ⟨?_, ?_, ?_, ?_⟩
  · simp only [f1_score, f1_precision, f1_recall, get_tokens_abc, get_tokens_bcd,
      num_same_abc_bcd, if_neg h2, if_neg h3]
    norm_num
  · simp only [f1_precision, hlb, hb, hn, if_neg h4]
    norm_num
  · simp only [f1_recall, hlb, hb, hn, if_neg h5]
    norm_num
  · simp only [f1_score, f1_precision, f1_recall, hlb, hb, hn, if_neg h4, if_neg h5]
    norm_num

lemma harmonicMean_bounds (P R : ℚ) (hP : 0 < P) (hR : 0 < R) (hP1 : P ≤ 1)
    (hR1 : R ≤ 1) : 0 ≤ 2 * P * R / (P + R) ∧ 2 * P * R / (P + R) ≤ 1 := by
  have hsum : 0 < P + R := add_pos hP hR
  constructor
  · positivity
  · rw [div_le_one hsum]
    nlinarith [mul_pos hP hR]

lemma num_same_le_left (p g : List Str) : num_same p g ≤ p.length := by
  have h := Multiset.card_le_card (Multiset.inter_le_left (↑p : Multiset Str) ↑g)
  simpa [num_same] using h

lemma num_same_le_right (p g : List Str) : num_same p g ≤ g.length := by
  have h := Multiset.card_le_card (Multiset.inter_le_right (↑p : Multiset Str) ↑g)
  simpa [num_same] using h

/-- C10: the F1 computation never divides by zero and stays in `[0, 1]`:
with an empty token-multiset intersection (in particular when either input
normalizes to no tokens) the result is exactly 0 and is produced before
either division; otherwise both token lists are nonempty (so both length
divisors are positive) and `precision + recall` is positive; and the
returned score always lies between 0 and 1. -/
theorem f1_score_total_bounded (p g : Str) :
    (num_same (get_tokens p) (get_tokens g) = 0 → f1_score p g = 0) ∧
    (get_tokens p = [] → f1_score p g = 0) ∧
    (get_tokens g = [] → f1_score p g = 0) ∧
    (num_same (get_tokens p) (get_tokens g) ≠ 0 →
      0 < (get_tokens p).length ∧ 0 < (get_tokens g).length ∧
      0 < f1_precision p g + f1_recall p g) ∧
    0 ≤ f1_score p g ∧ f1_score p g ≤ 1 := by
  by_cases h0 : num_same (get_tokens p) (get_tokens g) = 0
  · refine ⟨fun _ => ?_, fun _ => ?_, fun _ => ?_, fun hc => absurd h0 hc, ?_, ?_⟩ <;>
      simp [f1_score, h0]
  · have hple : num_same (get_tokens p) (get_tokens g) ≤ (get_tokens p).length :=
      num_same_le_left _ _
    have hgle : num_same (get_tokens p) (get_tokens g) ≤ (get_tokens g).length :=
      num_same_le_right _ _
    have hppos : 0 < (get_tokens p).length := by omega
    have hgpos : 0 < (get_tokens g).length := by omega
    have hpn : get_tokens p ≠ [] := by
      intro h; rw [h] at hppos; simp at hppos
    have hgn : get_tokens g ≠ [] := by
      intro h; rw [h] at hgpos; simp at hgpos
    have hnq : (0 : ℚ) < (num_same (get_tokens p) (get_tokens g) : ℚ) := by
      exact_mod_cast Nat.pos_of_ne_zero h0
    have hplq : (0 : ℚ) < ((get_tokens p).length : ℚ) := by exact_mod_cast hppos
    have hglq : (0 : ℚ) < ((get_tokens g).length : ℚ) := by exact_mod_cast hgpos
    have hprec : f1_precision p g =
        (num_same (get_tokens p) (get_tokens g) : ℚ) / (get_tokens p).length := by
      simp [f1_precision, hpn]
    have hrec : f1_recall p g =
        (num_same (get_tokens p) (get_tokens g) : ℚ) / (get_tokens g).length := by
      simp [f1_recall, hgn]
    have hprec_pos : 0 < f1_precision p g := by
      rw [hprec]; positivity
    have hrec_pos : 0 < f1_recall p g := by
      rw [hrec]; positivity
    have hprec_le : f1_precision p g ≤ 1 := by
      rw [hprec, div_le_one hplq]
      exact_mod_cast hple
    have hrec_le : f1_recall p g ≤ 1 := by
      rw [hrec, div_le_one hglq]
      exact_mod_cast hgle
    have hsum : 0 < f1_precision p g + f1_recall p g := add_pos hprec_pos hrec_pos
    have hf1 : f1_score p g =
        2 * f1_precision p g * f1_recall p g / (f1_precision p g + f1_recall p g) := by
      simp only [f1_score]
      rw [if_neg h0, if_neg (ne_of_gt hsum)]
    refine ⟨fun hc => absurd hc h0, fun hc => absurd (hc ▸ rfl) hpn,
      fun hc => absurd (hc ▸ rfl) hgn, fun _ => ⟨hppos, hgpos, hsum⟩, ?_, ?_⟩
    · rw [hf1]
      exact (harmonicMean_bounds _ _ hprec_pos hrec_pos hprec_le hrec_le).1
    · rw [hf1]
      exact (harmonicMean_bounds _ _ hprec_pos hrec_pos hprec_le hrec_le).2

lemma get_tokens_bang : get_tokens (String.toList "!!") = [] := by decide

lemma get_tokens_x : get_tokens (String.toList "x") = [['x']] := by decide

lemma get_tokens_b : get_tokens ['b'] = [['b']] := by decide

lemma num_same_bang_x :
    num_same (get_tokens (String.toList "!!")) (get_tokens (String.toList "x")) = 0 := by
  rw [get_tokens_bang, get_tokens_x]; decide

lemma num_same_b_b : num_same (get_tokens ['b']) (get_tokens ['b']) ≠ 0 := by
  rw [get_tokens_b]; decide

/-- Witness for `f1_score_total_bounded` at concrete inputs, discharging
each hypothesis. -/
theorem f1_score_total_bounded_spot :
    f1_score (String.toList "!!") (String.toList "x") = 0 ∧
    0 < (get_tokens ['b']).length ∧
    0 < f1_precision ['b'] ['b'] + f1_recall ['b'] ['b'] :=
  ⟨(f1_score_total_bounded (String.toList "!!") (String.toList "x")).1 num_same_bang_x,
    ((f1_score_total_bounded ['b'] ['b']).2.2.2.1 num_same_b_b).1,
    ((f1_score_total_bounded ['b'] ['b']).2.2.2.1 num_same_b_b).2.2⟩

end MeasureFacts

section NormalizeIdem

lemma wc_n : isWordChar 'n' = true := by decide

lemma wc_h : isWordChar 'h' = true := by decide

lemma wc_e : isWordChar 'e' = true := by decide

lemma nonword_ne (w : Char) (hw : isWordChar w = false) :
    w ≠ 'a' ∧ w ≠ 'n' ∧ w ≠ 't' ∧ w ≠ 'h' ∧ w ≠ 'e' := by
  refine ⟨?_, ?_, ?_, ?_, ?_⟩ <;> rintro rfl <;> revert hw <;> decide

lemma startsArt_nil : startsArt [] = false := by decide

lemma startsArt_an (rest : Str) : startsArt ('a' :: 'n' :: rest) = wordBreak rest := by
  simp [startsArt, wordBreak, wc_n]

lemma startsArt_the (rest : Str) : startsArt ('t' :: 'h' :: 'e' :: rest) = wordBreak rest := by
  simp [startsArt, wordBreak]

lemma startsArt_other (c : Char) (cs : Str) (ha : c ≠ 'a') (ht : c ≠ 't') :
    startsArt (c :: cs) = false := by
  simp [startsArt, wordBreak, ha, ht]

lemma startsArt_a (cs : Str) (hd : cs.take 1 ≠ ['n']) :
    startsArt ('a' :: cs) = wordBreak cs := by
  simp [startsArt, wordBreak, hd]

lemma startsArt_t (cs : Str) (hd : cs.take 2 ≠ ['h', 'e']) :
    startsArt ('t' :: cs) = false := by
  simp [startsArt, wordBreak, hd]

lemma startsArt_nonword (c : Char) (cs : Str) (hc : isWordChar c = false) :
    startsArt (c :: cs) = false := by
  obtain ⟨h1, -, h2, -, -⟩ := nonword_ne c hc
  exact startsArt_other c cs h1 h2

lemma wordBreak_append (w : Char) (hw : isWordChar w = false) (ys rest : Str) :
    wordBreak (rest ++ w :: ys) = wordBreak rest := by
  cases rest with
  | nil => simp [wordBreak, hw]
  | cons d ds => simp [wordBreak]

lemma startsArt_append (w : Char) (hw : isWordChar w = false) (ys : Str) (l : Str) :
    startsArt (l ++ w :: ys) = startsArt l := by
  obtain ⟨hwa, hwn, hwt, hwh, hwe⟩ := nonword_ne w hw
  rcases l with _ | ⟨c, l⟩
  · rw [List.nil_append, startsArt_nonword w ys hw, startsArt_nil]
  · by_cases hca : c = 'a'
    · subst hca
      rcases l with _ | ⟨d, l⟩
      · rw [List.cons_append, List.nil_append]
        rw [startsArt_a (w :: ys) (by simp [hwn]), startsArt_a [] (by simp)]
        simp [wordBreak, hw]
      · by_cases hdn : d = 'n'
        · subst hdn
          rw [List.cons_append, List.cons_append, startsArt_an, startsArt_an,
            wordBreak_append w hw]
        · rw [List.cons_append, List.cons_append]
          rw [startsArt_a (d :: (l ++ w :: ys)) (by simp [hdn]),
            startsArt_a (d :: l) (by simp [hdn])]
          simp [wordBreak]
    · by_cases hct : c = 't'
      · subst hct
        rcases l with _ | ⟨d, l⟩
        · rw [List.cons_append, List.nil_append]
          rw [startsArt_t (w :: ys) ?hne1, startsArt_t [] (by simp)]
          case hne1 =>
            rcases ys with _ | ⟨y, ys⟩ <;> simp [hwh]
        · by_cases hdh : d = 'h'
          · subst hdh
            rcases l with _ | ⟨e, l⟩
            · rw [List.cons_append, List.cons_append, List.nil_append]
              rw [startsArt_t ('h' :: w :: ys) (by simp [hwe]), startsArt_t ['h'] (by simp)]
            · by_cases hee : e = 'e'
              · subst hee
                rw [List.cons_append, List.cons_append, List.cons_append,
                  startsArt_the, startsArt_the, wordBreak_append w hw]
              · rw [List.cons_append, List.cons_append, List.cons_append]
                rw [startsArt_t ('h' :: e :: (l ++ w :: ys)) (by simp [hee]),
                  startsArt_t ('h' :: e :: l) (by simp [hee])]
          · rw [List.cons_append, List.cons_append]
            rw [startsArt_t (d :: (l ++ w :: ys)) ?hne2, startsArt_t (d :: l) ?hne3]
            case hne2 => simp [hdh]
            case hne3 => simp [hdh]
      · rw [List.cons_append, startsArt_other c _ hca hct, startsArt_other c l hca hct]

lemma noArt_append (w : Char) (hw : isWordChar w = false) (ys : Str) :
    ∀ (l : Str) (b : Bool),
      noArt b (l ++ w :: ys) = (noArt b l && noArt false ys) := by
  intro l
  induction l with
  | nil =>
      intro b
      rw [List.nil_append, noArt, noArt]
      rw [startsArt_nonword w ys hw]
      simp [hw]
  | cons c cs ih =>
      intro b
      rw [List.cons_append, noArt, noArt]
      rw [← List.cons_append, startsArt_append w hw ys (c :: cs)]
      rw [ih (isWordChar c)]
      simp [Bool.and_assoc]

lemma wc_a : isWordChar 'a' = true := by decide

lemma wc_t : isWordChar 't' = true := by decide

lemma wc_space : isWordChar ' ' = false := by decide

lemma removeArticlesGo_true (c : Char) (cs : Str) :
    removeArticlesGo true (c :: cs) = c :: removeArticlesGo (isWordChar c) cs := by
  rw [removeArticlesGo.eq_def]
  split <;> simp_all [wc_a, wc_t]

lemma removeArticlesGo_nomatch (b : Bool) (c : Char) (cs : Str)
    (h : startsArt (c :: cs) = false) :
    removeArticlesGo b (c :: cs) = c :: removeArticlesGo (isWordChar c) cs := by
  rw [removeArticlesGo.eq_def]
  split <;> simp_all [startsArt, wordBreak, wc_a, wc_t, wc_n, wc_h, wc_e]

lemma removeArticlesGo_match_an (rest : Str) (h : wordBreak rest = true) :
    removeArticlesGo false ('a' :: 'n' :: rest) = ' ' :: removeArticlesGo true rest := by
  simp only [removeArticlesGo, Bool.not_false, Bool.true_and, h, if_true]

lemma removeArticlesGo_match_the (rest : Str) (h : wordBreak rest = true) :
    removeArticlesGo false ('t' :: 'h' :: 'e' :: rest) = ' ' :: removeArticlesGo true rest := by
  simp only [removeArticlesGo, Bool.not_false, Bool.true_and, h, if_true]

lemma removeArticlesGo_match_a (cs : Str) (h : wordBreak cs = true) :
    removeArticlesGo false ('a' :: cs) = ' ' :: removeArticlesGo true cs := by
  rcases cs with _ | ⟨d, ds⟩
  · simp only [removeArticlesGo]
    rfl
  · by_cases hd : d = 'n'
    · subst hd
      rw [wordBreak, wc_n] at h
      simp at h
    · rw [removeArticlesGo.eq_def]
      split
      · simp_all
      · simp_all
      · rename_i hne heq
        obtain ⟨rfl, rfl⟩ := heq
        simp [h]
      · simp_all
      · rename_i h1 h2 h3
        obtain ⟨rfl, -⟩ := h3
        exact absurd rfl h1

lemma startsArt_true_cases (c : Char) (cs : Str) (h : startsArt (c :: cs) = true) :
    (c = 'a' ∧ wordBreak cs = true) ∨
    (∃ rest, c = 'a' ∧ cs = 'n' :: rest ∧ wordBreak rest = true) ∨
    (∃ rest, c = 't' ∧ cs = 'h' :: 'e' :: rest ∧ wordBreak rest = true) := by
  by_cases hca : c = 'a'
  · subst hca
    rcases cs with _ | ⟨d, ds⟩
    · exact Or.inl ⟨rfl, rfl⟩
    · by_cases hdn : d = 'n'
      · subst hdn
        rw [startsArt_an] at h
        exact Or.inr (Or.inl ⟨ds, rfl, rfl, h⟩)
      · rw [startsArt_a _ (by simp [hdn])] at h
        exact Or.inl ⟨rfl, h⟩
  · by_cases hct : c = 't'
    · subst hct
      rcases cs with _ | ⟨d, ds⟩
      · rw [startsArt_t [] (by simp)] at h
        simp at h
      · by_cases hdh : d = 'h'
        · subst hdh
          rcases ds with _ | ⟨e, es⟩
          · rw [startsArt_t ['h'] (by simp)] at h
            simp at h
          · by_cases hee : e = 'e'
            · subst hee
              rw [startsArt_the] at h
              exact Or.inr (Or.inr ⟨es, rfl, rfl, h⟩)
            · rw [startsArt_t _ (by simp [hee])] at h
              simp at h
        · rw [startsArt_t _ (by simp [hdh])] at h
          simp at h
    · rw [startsArt_other c cs hca hct] at h
      simp at h

lemma startsArt_go (c : Char) (cs : Str) (hs : startsArt (c :: cs) = false) :
    startsArt (c :: removeArticlesGo (isWordChar c) cs) = false := by
  by_cases hca : c = 'a'
  · subst hca
    rw [wc_a]
    rcases cs with _ | ⟨d, ds⟩
    · rw [startsArt_a [] (by simp)] at hs
      simp [wordBreak] at hs
    · by_cases hdn : d = 'n'
      · subst hdn
        rw [startsArt_an] at hs
        rcases ds with _ | ⟨e, es⟩
        · simp [wordBreak] at hs
        · rw [wordBreak] at hs
          have hew : isWordChar e = true := by
            cases hfe : isWordChar e
            · rw [hfe] at hs; simp at hs
            · rfl
          rw [removeArticlesGo_true, wc_n, removeArticlesGo_true, hew, startsArt_an,
            wordBreak, hew]
          rfl
      · rw [startsArt_a _ (by simp [hdn])] at hs
        rw [wordBreak] at hs
        have hdw : isWordChar d = true := by
          cases hfd : isWordChar d
          · rw [hfd] at hs; simp at hs
          · rfl
        rw [removeArticlesGo_true, hdw]
        rw [startsArt_a _ ?notn]
        case notn =>
          simp [hdn]
        rw [wordBreak, hdw]
        rfl
  · by_cases hct : c = 't'
    · subst hct
      rw [wc_t]
      rcases cs with _ | ⟨d, ds⟩
      · simp [removeArticlesGo, startsArt_t [] (by simp)]
      · by_cases hdh : d = 'h'
        · subst hdh
          rcases ds with _ | ⟨e, es⟩
          · rw [removeArticlesGo_true, wc_h]
            simp only [removeArticlesGo]
            rw [startsArt_t ['h'] (by simp)]
          · by_cases hee : e = 'e'
            · subst hee
              rw [startsArt_the] at hs
              rcases es with _ | ⟨f, fs⟩
              · simp [wordBreak] at hs
              · rw [wordBreak] at hs
                have hfw : isWordChar f = true := by
                  cases hff : isWordChar f
                  · rw [hff] at hs; simp at hs
                  · rfl
                rw [removeArticlesGo_true, wc_h, removeArticlesGo_true, wc_e,
                  removeArticlesGo_true, hfw, startsArt_the, wordBreak, hfw]
                rfl
            · rw [removeArticlesGo_true, wc_h, removeArticlesGo_true]
              rw [startsArt_t _ (by simp [hee])]
        · rw [removeArticlesGo_true]
          rw [startsArt_t _ ?noth]
          case noth =>
            rcases ds with _ | ⟨e, es⟩ <;> simp [hdh]
    · rw [startsArt_other c _ hca hct]

lemma wordBreak_nonword (d : Char) (ds : Str) (h : wordBreak (d :: ds) = true) :
    isWordChar d = false := by
  rw [wordBreak] at h
  cases hfd : isWordChar d
  · rfl
  · rw [hfd] at h; simp at h

lemma noArt_removeArticlesGo : ∀ (l : Str) (b : Bool),
    noArt b (removeArticlesGo b l) = true := by
  suffices H : ∀ (n : Nat) (l : Str), l.length ≤ n → ∀ b,
      noArt b (removeArticlesGo b l) = true by
    exact fun l b => H l.length l le_rfl b
  intro n
  induction n with
  | zero =>
      intro l hl b
      rw [List.length_eq_zero.mp (Nat.le_zero.mp hl)]
      rfl
  | succ n ih =>
      intro l hl b
      have key_space : ∀ (cs : Str), cs.length ≤ n → wordBreak cs = true →
          noArt false (' ' :: removeArticlesGo true cs) = true := by
        intro cs hcs hwb
        rw [noArt, startsArt_nonword ' ' _ wc_space, wc_space]
        simp only [Bool.or_false, Bool.not_false, Bool.true_and]
        rcases cs with _ | ⟨d, ds⟩
        · rfl
        · have hdw : isWordChar d = false := wordBreak_nonword d ds hwb
          rw [removeArticlesGo_true, hdw, noArt,
            startsArt_nonword d _ hdw, hdw]
          simp only [Bool.or_false, Bool.not_false, Bool.true_and]
          exact ih ds (by simp at hcs; omega) false
      rcases l with _ | ⟨c, cs⟩
      · rfl
      · cases b
      
        case true =>
          rw [removeArticlesGo_true, noArt]
          rw [ih cs (by simp at hl; omega) (isWordChar c)]
          simp
        case false =>
          cases hs : startsArt (c :: cs)
          · rw [removeArticlesGo_nomatch false c cs hs, noArt]
            rw [startsArt_go c cs hs]
            rw [ih cs (by simp at hl; omega) (isWordChar c)]
            simp
          · rcases startsArt_true_cases c cs hs with ⟨rfl, hwb⟩ |
              ⟨rest, rfl, rfl, hwb⟩ | ⟨rest, rfl, rfl, hwb⟩
            · rw [removeArticlesGo_match_a cs hwb]
              exact key_space cs (by simp at hl; omega) hwb
            · rw [removeArticlesGo_match_an rest hwb]
              exact key_space rest (by simp at hl; omega) hwb
            · rw [removeArticlesGo_match_the rest hwb]
              exact key_space rest (by simp at hl; omega) hwb

lemma removeArticlesGo_of_noArt : ∀ (l : Str) (b : Bool), noArt b l = true →
    removeArticlesGo b l = l := by
  intro l
  induction l with
  | nil => intro b _; rfl
  | cons c cs ihl =>
      intro b h
      rw [noArt] at h
      simp only [Bool.and_eq_true, Bool.or_eq_true, Bool.not_eq_true'] at h
      obtain ⟨h1, h2⟩ := h
      rcases h1 with rfl | hsf
      · rw [removeArticlesGo_true, ihl (isWordChar c) h2]
      · rw [removeArticlesGo_nomatch b c cs hsf, ihl (isWordChar c) h2]

lemma isPySpace_nonword (c : Char) (h : isPySpace c = true) : isWordChar c = false := by
  have h2 : c.toNat = 32 ∨ c.toNat = 9 ∨ c.toNat = 10 ∨ c.toNat = 13 ∨ c.toNat = 11 ∨
      c.toNat = 12 := by
    simpa [isPySpace, Bool.or_eq_true, beq_iff_eq, or_assoc] using h
  rw [isWordChar]
  simp only [Bool.or_eq_false_iff, Bool.and_eq_false_iff, decide_eq_false_iff_not,
    not_le, beq_eq_false_iff_ne, ne_eq]
  omega

lemma splitWsCore_fst (l : Str) :
    (splitWsCore l).1 = l.takeWhile (fun c => !isPySpace c) := by
  induction l with
  | nil => rfl
  | cons c cs ih =>
      rw [splitWsCore, List.takeWhile_cons]
      cases hc : isPySpace c <;> simp [hc, ih]

lemma splitWsCore_tokens (l : Str) :
    (∀ c ∈ (splitWsCore l).1, isPySpace c = false) ∧
    (∀ t ∈ (splitWsCore l).2, t ≠ [] ∧ ∀ c ∈ t, isPySpace c = false) := by
  induction l with
  | nil => exact ⟨by simp [splitWsCore], by simp [splitWsCore]⟩
  | cons c cs ih =>
      obtain ⟨ih1, ih2⟩ := ih
      rw [splitWsCore]
      cases hc : isPySpace c
      · simp only [Bool.false_eq_true, if_false]
        refine ⟨?_, ih2⟩
        intro x hx
        rcases List.mem_cons.mp hx with rfl | hx
        · exact hc
        · exact ih1 x hx
      · simp only [if_true]
        refine ⟨by simp, ?_⟩
        intro t ht
        by_cases hemp : (splitWsCore cs).1 = []
        · rw [if_pos hemp] at ht
          exact ih2 t ht
        · rw [if_neg hemp] at ht
          rcases List.mem_cons.mp ht with rfl | ht
          · exact ⟨hemp, ih1⟩
          · exact ih2 t ht

lemma pySplit_tokens (l : Str) :
    ∀ t ∈ pySplit l, t ≠ [] ∧ ∀ c ∈ t, isPySpace c = false := by
  intro t ht
  obtain ⟨h1, h2⟩ := splitWsCore_tokens l
  rw [pySplit] at ht
  by_cases hemp : (splitWsCore l).1 = []
  · rw [if_pos hemp] at ht
    exact h2 t ht
  · rw [if_neg hemp] at ht
    rcases List.mem_cons.mp ht with rfl | ht
    · exact ⟨hemp, h1⟩
    · exact h2 t ht

lemma splitWsCore_append_nonws (t : Str) (ht : ∀ c ∈ t, isPySpace c = false)
    (r : Str) :
    splitWsCore (t ++ r) = (t ++ (splitWsCore r).1, (splitWsCore r).2) := by
  induction t with
  | nil => simp
  | cons c cs ih =>
      have hc : isPySpace c = false := ht c (by simp)
      rw [List.cons_append, splitWsCore]
      simp only [hc, Bool.false_eq_true, if_false]
      rw [ih (fun x hx => ht x (by simp [hx]))]
      simp

lemma splitWsCore_cons_space (c : Char) (hc : isPySpace c = true) (r : Str) :
    splitWsCore (c :: r) = ([], pySplit r) := by
  rw [splitWsCore, pySplit]
  simp [hc]

lemma pySplit_joinSep : ∀ (toks : List Str),
    (∀ t ∈ toks, t ≠ [] ∧ ∀ c ∈ t, isPySpace c = false) →
    pySplit (joinSep ' ' toks) = toks := by
  intro toks
  induction toks with
  | nil => intro _; rfl
  | cons t ts ih =>
      intro h
      obtain ⟨htne, htc⟩ := h t (by simp)
      rcases ts with _ | ⟨t2, ts⟩
      · show pySplit t = [t]
        rw [pySplit, show (t : Str) = t ++ [] from (List.append_nil t).symm,
          splitWsCore_append_nonws t htc []]
        simp [htne, splitWsCore]
      · show pySplit (t ++ ' ' :: joinSep ' ' (t2 :: ts)) = t :: t2 :: ts
        rw [pySplit, splitWsCore_append_nonws t htc,
          splitWsCore_cons_space ' ' (by decide)]
        simp only [List.append_nil]
        rw [if_neg htne]
        rw [ih (fun x hx => h x (by simp [hx]))]

lemma wordBreak_takeWhile (cs : Str) :
    wordBreak (cs.takeWhile (fun x => !isPySpace x)) = wordBreak cs := by
  cases cs with
  | nil => rfl
  | cons d ds =>
      rw [List.takeWhile_cons]
      cases hd : isPySpace d
      · simp [wordBreak]
      · simp [wordBreak, isPySpace_nonword d hd]

lemma take_one_takeWhile_ne_n (d : Char) (ds : Str) (hdn : d ≠ 'n') :
    ((d :: ds).takeWhile (fun x => !isPySpace x)).take 1 ≠ ['n'] := by
  rw [List.takeWhile_cons]
  cases hd : isPySpace d <;> simp [hd, hdn]

lemma startsArt_takeWhile (c : Char) (cs : Str) :
    startsArt (c :: cs.takeWhile (fun x => !isPySpace x)) = startsArt (c :: cs) := by
  by_cases hca : c = 'a'
  · subst hca
    rcases cs with _ | ⟨d, ds⟩
    · rfl
    · by_cases hdn : d = 'n'
      · subst hdn
        rw [List.takeWhile_cons]
        have : isPySpace 'n' = false := by decide
        rw [this]
        simp only [Bool.not_false, if_true]
        rw [startsArt_an, startsArt_an, wordBreak_takeWhile]
      · rw [startsArt_a ((d :: ds).takeWhile (fun x => !isPySpace x))
            (take_one_takeWhile_ne_n d ds hdn),
          startsArt_a (d :: ds) (by simp [hdn])]
        exact wordBreak_takeWhile (d :: ds)
  · by_cases hct : c = 't'
    · subst hct
      rcases cs with _ | ⟨d, ds⟩
      · rfl
      · by_cases hdh : d = 'h'
        · subst hdh
          have hh : isPySpace 'h' = false := by decide
          rcases ds with _ | ⟨e, es⟩
          · rw [List.takeWhile_cons, hh]
            rfl
          · by_cases hee : e = 'e'
            · subst hee
              have he : isPySpace 'e' = false := by decide
              rw [List.takeWhile_cons, hh]
              simp only [Bool.not_false, if_true]
              rw [List.takeWhile_cons, he]
              simp only [Bool.not_false, if_true]
              rw [startsArt_the, startsArt_the, wordBreak_takeWhile]
            · rw [List.takeWhile_cons, hh]
              simp only [Bool.not_false, if_true]
              rw [List.takeWhile_cons]
              cases hes : isPySpace e
              · simp only [Bool.not_false, if_true]
                rw [startsArt_t _ (by simp [hee]), startsArt_t _ (by simp [hee])]
              · simp only [Bool.not_true, if_false]
                rw [startsArt_t _ (by simp), startsArt_t _ (by simp [hee])]
        · rw [List.takeWhile_cons]
          cases hds : isPySpace d
          · simp only [Bool.not_false, if_true]
            rw [startsArt_t _ ?h1, startsArt_t _ ?h2]
            case h1 =>
              cases hts : ds.takeWhile (fun x => !isPySpace x) <;> simp [hdh]
            case h2 =>
              cases ds <;> simp [hdh]
          · simp only [Bool.not_true, Bool.false_eq_true, if_false]
            rw [startsArt_t [] (by simp), startsArt_t _ (by cases ds <;> simp [hdh])]
    · rw [startsArt_other c _ hca hct, startsArt_other c _ hca hct]

lemma noArt_splitWsCore : ∀ (l : Str) (b : Bool), noArt b l = true →
    noArt b (splitWsCore l).1 = true ∧ ∀ t ∈ (splitWsCore l).2, noArt false t = true := by
  intro l
  induction l with
  | nil => exact fun b _ => ⟨rfl, by simp [splitWsCore]⟩
  | cons c cs ih =>
      intro b h
      rw [noArt] at h
      simp only [Bool.and_eq_true, Bool.or_eq_true, Bool.not_eq_true'] at h
      obtain ⟨h1, h2⟩ := h
      rw [splitWsCore]
      cases hc : isPySpace c
      · simp only [Bool.false_eq_true, if_false]
        obtain ⟨iht, ihg⟩ := ih (isWordChar c) h2
        constructor
        · rw [splitWsCore_fst, noArt]
          have hsa : startsArt (c :: cs.takeWhile (fun x => !isPySpace x)) =
              startsArt (c :: cs) := startsArt_takeWhile c cs
          rcases h1 with rfl | hsf
          · rw [← splitWsCore_fst]
            simp [iht]
          · rw [hsa, hsf, ← splitWsCore_fst]
            simp [iht]
        · exact ihg
      · simp only [if_true]
        have hcw : isWordChar c = false := isPySpace_nonword c hc
        rw [hcw] at h2
        obtain ⟨iht, ihg⟩ := ih false h2
        refine ⟨rfl, ?_⟩
        intro t ht
        by_cases hemp : (splitWsCore cs).1 = []
        · rw [if_pos hemp] at ht
          exact ihg t ht
        · rw [if_neg hemp] at ht
          rcases List.mem_cons.mp ht with rfl | ht
          · exact iht
          · exact ihg t ht

lemma noArt_pySplit (l : Str) (h : noArt false l = true) :
    ∀ t ∈ pySplit l, noArt false t = true := by
  intro t ht
  obtain ⟨h1, h2⟩ := noArt_splitWsCore l false h
  rw [pySplit] at ht
  by_cases hemp : (splitWsCore l).1 = []
  · rw [if_pos hemp] at ht
    exact h2 t ht
  · rw [if_neg hemp] at ht
    rcases List.mem_cons.mp ht with rfl | ht
    · exact h1
    · exact h2 t ht

lemma noArt_joinSep : ∀ (toks : List Str),
    (∀ t ∈ toks, noArt false t = true) → noArt false (joinSep ' ' toks) = true := by
  intro toks
  induction toks with
  | nil => intro _; rfl
  | cons t ts ih =>
      intro h
      rcases ts with _ | ⟨t2, ts⟩
      · exact h t (by simp)
      · show noArt false (t ++ ' ' :: joinSep ' ' (t2 :: ts)) = true
        rw [noArt_append ' ' wc_space]
        rw [h t (by simp), ih (fun x hx => h x (by simp [hx]))]
        rfl

lemma char_toNat_ofNat_valid (n : Nat) (h : n.isValidChar) : (Char.ofNat n).toNat = n := by
  rw [Char.ofNat, dif_pos h]
  rfl

lemma pyLowerChar_idem (c : Char) : pyLowerChar (pyLowerChar c) = pyLowerChar c := by
  rw [pyLowerChar, pyLowerChar]
  split
  case isTrue h =>
    have hv : (c.toNat + 32).isValidChar := Or.inl (by omega)
    have hval : (Char.ofNat (c.toNat + 32)).toNat = c.toNat + 32 :=
      char_toNat_ofNat_valid _ hv
    rw [if_neg]
    rw [hval]
    omega
  case isFalse h => rfl

lemma mem_removeArticlesGo : ∀ (l : Str) (b : Bool) (c : Char),
    c ∈ removeArticlesGo b l → c = ' ' ∨ c ∈ l := by
  suffices H : ∀ (n : Nat) (l : Str), l.length ≤ n → ∀ b c,
      c ∈ removeArticlesGo b l → c = ' ' ∨ c ∈ l by
    exact fun l b c => H l.length l le_rfl b c
  intro n
  induction n with
  | zero =>
      intro l hl b c hc
      rw [List.length_eq_zero.mp (Nat.le_zero.mp hl)] at hc
      simp [removeArticlesGo] at hc
  | succ n ih =>
      intro l hl b c hc
      rcases l with _ | ⟨c0, cs⟩
      · simp [removeArticlesGo] at hc
      · have step : ∀ (ds : Str), ds.length ≤ n →
            c ∈ ' ' :: removeArticlesGo true ds → c = ' ' ∨ c ∈ ds := by
          intro ds hds hmem
          rcases List.mem_cons.mp hmem with rfl | hmem
          · exact Or.inl rfl
          · rcases ih ds hds true c hmem with rfl | hmem
            · exact Or.inl rfl
            · exact Or.inr hmem
        have nostep : c ∈ c0 :: removeArticlesGo (isWordChar c0) cs →
            c = ' ' ∨ c ∈ c0 :: cs := by
          intro hmem
          rcases List.mem_cons.mp hmem with rfl | hmem
          · exact Or.inr (by simp)
          · rcases ih cs (by simp at hl; omega) (isWordChar c0) c hmem with rfl | hmem
            · exact Or.inl rfl
            · exact Or.inr (by simp [hmem])
        cases b
        case true =>
          rw [removeArticlesGo_true] at hc
          exact nostep hc
        case false =>
          cases hs : startsArt (c0 :: cs)
          · rw [removeArticlesGo_nomatch false c0 cs hs] at hc
            exact nostep hc
          · rcases startsArt_true_cases c0 cs hs with ⟨rfl, hwb⟩ |
              ⟨rest, rfl, rfl, hwb⟩ | ⟨rest, rfl, rfl, hwb⟩
            · rw [removeArticlesGo_match_a cs hwb] at hc
              rcases step cs (by simp at hl; omega) hc with rfl | hmem
              · exact Or.inl rfl
              · exact Or.inr (by simp [hmem])
            · rw [removeArticlesGo_match_an rest hwb] at hc
              rcases step rest (by simp at hl; omega) hc with rfl | hmem
              · exact Or.inl rfl
              · exact Or.inr (by simp [hmem])
            · rw [removeArticlesGo_match_the rest hwb] at hc
              rcases step rest (by simp at hl; omega) hc with rfl | hmem
              · exact Or.inl rfl
              · exact Or.inr (by simp [hmem])

lemma mem_joinSep : ∀ (toks : List Str) (c : Char),
    c ∈ joinSep ' ' toks → c = ' ' ∨ ∃ t ∈ toks, c ∈ t := by
  intro toks
  induction toks with
  | nil => intro c hc; simp [joinSep] at hc
  | cons t ts ih =>
      intro c hc
      rcases ts with _ | ⟨t2, ts⟩
      · exact Or.inr ⟨t, by simp, hc⟩
      · rw [show joinSep ' ' (t :: t2 :: ts) = t ++ ' ' :: joinSep ' ' (t2 :: ts) from rfl]
          at hc
        rcases List.mem_append.mp hc with h | h
        · exact Or.inr ⟨t, by simp, h⟩
        · rcases List.mem_cons.mp h with rfl | h
          · exact Or.inl rfl
          · rcases ih c h with rfl | ⟨t', ht', hct'⟩
            · exact Or.inl rfl
            · exact Or.inr ⟨t', by simp [List.mem_cons.mp ht'], hct'⟩

lemma mem_splitWsCore : ∀ (l : Str),
    (∀ c ∈ (splitWsCore l).1, c ∈ l) ∧
    (∀ t ∈ (splitWsCore l).2, ∀ c ∈ t, c ∈ l) := by
  intro l
  induction l with
  | nil => exact ⟨by simp [splitWsCore], by simp [splitWsCore]⟩
  | cons c0 cs ih =>
      obtain ⟨ih1, ih2⟩ := ih
      rw [splitWsCore]
      cases hc0 : isPySpace c0
      · simp only [Bool.false_eq_true, if_false]
        constructor
        · intro c hc
          rcases List.mem_cons.mp hc with rfl | hc
          · simp
          · simp [ih1 c hc]
        · intro t ht c hc
          simp [ih2 t ht c hc]
      · simp only [if_true]
        refine ⟨by simp, ?_⟩
        intro t ht c hc
        by_cases hemp : (splitWsCore cs).1 = []
        · rw [if_pos hemp] at ht
          simp [ih2 t ht c hc]
        · rw [if_neg hemp] at ht
          rcases List.mem_cons.mp ht with rfl | ht
          · simp [ih1 c hc]
          · simp [ih2 t ht c hc]

lemma mem_pySplit (l : Str) (t : Str) (ht : t ∈ pySplit l) (c : Char) (hc : c ∈ t) :
    c ∈ l := by
  obtain ⟨h1, h2⟩ := mem_splitWsCore l
  rw [pySplit] at ht
  by_cases hemp : (splitWsCore l).1 = []
  · rw [if_pos hemp] at ht
    exact h2 t ht c hc
  · rw [if_neg hemp] at ht
    rcases List.mem_cons.mp ht with rfl | ht
    · exact h1 c hc
    · exact h2 t ht c hc

lemma map_id_of_mem {f : Char → Char} : ∀ (l : Str), (∀ c ∈ l, f c = c) → l.map f = l := by
  intro l
  induction l with
  | nil => intro _; rfl
  | cons c cs ih =>
      intro h
      rw [List.map_cons, h c (by simp), ih (fun x hx => h x (by simp [hx]))]

/-- C8: the text normalization is idempotent: for every string `s`,
`normalize_answer (normalize_answer s) = normalize_answer s`.  The output
of `normalize_answer` is a single-space-separated list of nonempty
whitespace-free tokens whose characters are lower-case-stable and
punctuation-free, and it contains no position where `\b(a|an|the)\b`
matches, so every stage of a second pass leaves it unchanged. -/
theorem normalize_answer_idem (s : Str) :
    normalize_answer (normalize_answer s) = normalize_answer s := by
  have hmem : ∀ c ∈ normalize_answer s, c = ' ' ∨ c ∈ remove_punc (lower s) := by
    intro c hc
    rcases mem_joinSep _ c hc with rfl | ⟨t, ht, hct⟩
    · exact Or.inl rfl
    · have hcy : c ∈ remove_articles (remove_punc (lower s)) :=
        mem_pySplit _ t ht c hct
      exact mem_removeArticlesGo _ false c hcy
  have h1 : lower (normalize_answer s) = normalize_answer s := by
    apply map_id_of_mem
    intro c hc
    rcases hmem c hc with rfl | hc
    · decide
    · rcases List.mem_map.mp (List.mem_of_mem_filter hc) with ⟨c0, -, rfl⟩
      exact pyLowerChar_idem c0
  have h2 : remove_punc (normalize_answer s) = normalize_answer s := by
    rw [remove_punc, List.filter_eq_self]
    intro c hc
    rcases hmem c hc with rfl | hc
    · decide
    · rw [remove_punc] at hc
      have h5 := List.of_mem_filter hc
      simpa using h5
  have h3 : remove_articles (normalize_answer s) = normalize_answer s := by
    apply removeArticlesGo_of_noArt
    apply noArt_joinSep
    apply noArt_pySplit
    exact noArt_removeArticlesGo (remove_punc (lower s)) false
  have h4 : white_space_fix (normalize_answer s) = normalize_answer s := by
    conv_lhs => rw [normalize_answer, white_space_fix]
    rw [white_space_fix, pySplit_joinSep _ (pySplit_tokens _)]
    rfl
  show white_space_fix (remove_articles (remove_punc (lower (normalize_answer s)))) =
    normalize_answer s
  rw [h1, h2, h3, h4]

end NormalizeIdem

section RunFacts

lemma runLoop_length {Ctx : Type} (cb : Str → Ctx → Except Str Str) :
    ∀ (i : Nat) (data : List (Sample Ctx)),
    (runLoop cb i data).1.length = data.length := by
  intro i data
  induction data generalizing i with
  | nil => rfl
  | cons item rest ih =>
      rw [runLoop]
      cases hcb : cb item.question item.context <;> simp [hcb, ih]

lemma runLoop_get {Ctx : Type} (cb : Str → Ctx → Except Str Str) :
    ∀ (i j : Nat) (data : List (Sample Ctx)) (item : Sample Ctx),
    data.get? j = some item →
    (runLoop cb i data).1.get? j = some (runStep cb (i + j) item) := by
  intro i j data
  induction data generalizing i j with
  | nil => intro item h; simp at h
  | cons it rest ih =>
      intro item h
      rcases j with _ | j
      · rw [List.get?_cons_zero] at h
        injection h with h
        subst h
        rw [runLoop]
        cases hcb : cb it.question it.context <;> simp [hcb]
      · rw [List.get?_cons_succ] at h
        have harith : i + (j + 1) = (i + 1) + j := by omega
        rw [runLoop, harith]
        have hrec := ih (i + 1) j item h
        cases hcb : cb it.question it.context <;> simpa [hcb] using hrec

lemma runLoop_sums {Ctx : Type} (cb : Str → Ctx → Except Str Str) :
    ∀ (i : Nat) (data : List (Sample Ctx)),
    (runLoop cb i data).2.1 = ((runLoop cb i data).1.map RunResult.em).sum ∧
    (runLoop cb i data).2.2 = ((runLoop cb i data).1.map RunResult.f1).sum := by
  intro i data
  induction data generalizing i with
  | nil => exact ⟨rfl, rfl⟩
  | cons it rest ih =>
      obtain ⟨ih1, ih2⟩ := ih (i + 1)
      rw [runLoop]
      cases hcb : cb it.question it.context
      case error e =>
        have hem : (runStep cb i it).em = 0 := by rw [runStep, hcb]
        have hf1 : (runStep cb i it).f1 = 0 := by rw [runStep, hcb]
        simp [hcb, ih1, ih2, hem, hf1]
      case ok p =>
        simp [hcb, ih1, ih2]

lemma run_selects_validate {Ctx : Type} (cb : Str → Ctx → Except Str Str)
    (b : BenchState Ctx) (data : List (Sample Ctx)) (hload : b.validate = some data) :
    HotpotQA_run cb b (String.toList "validate") none = .ok (runCore cb data) := by
  rw [HotpotQA_run]
  rw [if_neg (by decide), if_pos rfl, hload]

/-- C2: when the callback raises for exactly one of the N loaded samples,
`run` still returns N per-sample results; the failed sample's result is
FAIL with exact-match and F1 scores 0 and the raised message attached in a
present (non-null) error field; every sample is still processed in order;
and the aggregate metrics are arithmetic means of the per-sample scores
over all N samples (the failed one contributing 0 to each sum). -/
theorem run_partial_failure {Ctx : Type} (cb : Str → Ctx → Except Str Str)
    (b : BenchState Ctx) (data : List (Sample Ctx)) (hload : b.validate = some data)
    (i : Nat) (item : Sample Ctx) (e : Str)
    (hitem : data.get? i = some item)
    (herr : cb item.question item.context = .error e)
    (hne : e ≠ [])
    (hok : ∀ j itemj, data.get? j = some itemj → j ≠ i →
      (cb itemj.question itemj.context).isOk = true) :
    HotpotQA_run cb b (String.toList "validate") none = .ok (runCore cb data) ∧
    (runCore cb data).results.length = data.length ∧
    (∃ r, (runCore cb data).results.get? i = some r ∧ r.result = Verdict.FAIL ∧
      r.em = 0 ∧ r.f1 = 0 ∧ r.error = some e ∧ r.error ≠ none) ∧
    (∀ j itemj, data.get? j = some itemj →
      (runCore cb data).results.get? j = some (runStep cb j itemj)) ∧
    (runCore cb data).metrics.num_samples = data.length ∧
    (runCore cb data).metrics.exact_match =
      ((runCore cb data).results.map RunResult.em).sum / data.length ∧
    (runCore cb data).metrics.f1 =
      ((runCore cb data).results.map RunResult.f1).sum / data.length := by
  have hres : (runCore cb data).results = (runLoop cb 0 data).1 := rfl
  have hlen : (runCore cb data).results.length = data.length := by
    rw [hres, runLoop_length]
  have hget : ∀ j itemj, data.get? j = some itemj →
      (runCore cb data).results.get? j = some (runStep cb j itemj) := by
    intro j itemj h
    rw [hres]
    have := runLoop_get cb 0 j data itemj h
    simpa using this
  have hpos : 0 < data.length := by
    by_contra hz
    have : data = [] := by
      cases data
      · rfl
      · simp at hz
    rw [this] at hitem
    simp at hitem
  obtain ⟨hsum1, hsum2⟩ := runLoop_sums cb 0 data
  refine ⟨run_selects_validate cb b data hload, hlen, ?_, hget, ?_, ?_, ?_⟩
  · refine ⟨runStep cb i item, hget i item hitem, ?_⟩
    rw [runStep, herr]
    exact ⟨rfl, rfl, rfl, rfl, by simp⟩
  · show (runLoop cb 0 data).1.length = data.length
    rw [runLoop_length]
  · show (if 0 < (runLoop cb 0 data).1.length then
        (runLoop cb 0 data).2.1 / ((runLoop cb 0 data).1.length : ℚ) else 0) = _
    rw [runLoop_length, if_pos hpos, hsum1, hres]
  · show (if 0 < (runLoop cb 0 data).1.length then
        (runLoop cb 0 data).2.2 / ((runLoop cb 0 data).1.length : ℚ) else 0) = _
    rw [runLoop_length, if_pos hpos, hsum2, hres]

end RunFacts

section RunErrorFacts

/-- Witness for `run_partial_failure`: two samples, the callback raising
only on the first. -/
theorem run_partial_failure_spot :
    (runCore
      (fun q (_ : Unit) => if q = String.toList "q1" then
        Except.error (String.toList "boom") else Except.ok (String.toList "a2"))
      [⟨String.toList "q1", (), String.toList "a1", none⟩,
       ⟨String.toList "q2", (), String.toList "a2", none⟩]).results.length = 2 :=
  (run_partial_failure
    (fun q (_ : Unit) => if q = String.toList "q1" then
      Except.error (String.toList "boom") else Except.ok (String.toList "a2"))
    ⟨none, some [⟨String.toList "q1", (), String.toList "a1", none⟩,
      ⟨String.toList "q2", (), String.toList "a2", none⟩], none⟩
    [⟨String.toList "q1", (), String.toList "a1", none⟩,
     ⟨String.toList "q2", (), String.toList "a2", none⟩]
    rfl 0 ⟨String.toList "q1", (), String.toList "a1", none⟩ (String.toList "boom")
    rfl rfl (by decide)
    (by
      intro j itemj hget hj
      rcases j with _ | _ | j
      · exact absurd rfl hj
      · rw [List.get?_cons_succ, List.get?_cons_zero] at hget
        injection hget with hget
        subst hget
        decide
      · rw [List.get?_cons_succ, List.get?_cons_succ] at hget
        simp at hget)).2.1

/-- C6: `run` fails with the `ValueError` for an unknown partition name
whenever the name is none of `train`/`validate`/`test`, and with the
`ValueError` for an unloaded partition when the named partition is null;
in both cases the outcome is independent of the callback (it is never
invoked) and no result dictionary is returned. -/
theorem run_valueerror {Ctx : Type} (cb cb' : Str → Ctx → Except Str Str)
    (b : BenchState Ctx) (name : Str) (ns : Option Nat) :
    (name ≠ String.toList "train" → name ≠ String.toList "validate" →
      name ≠ String.toList "test" →
      HotpotQA_run cb b name ns = .error (.unknownDataset name) ∧
      HotpotQA_run cb b name ns = HotpotQA_run cb' b name ns) ∧
    (name = String.toList "train" → b.train = none →
      HotpotQA_run cb b name ns = .error (.datasetNotLoaded name) ∧
      HotpotQA_run cb b name ns = HotpotQA_run cb' b name ns) ∧
    (name = String.toList "validate" → b.validate = none →
      HotpotQA_run cb b name ns = .error (.datasetNotLoaded name) ∧
      HotpotQA_run cb b name ns = HotpotQA_run cb' b name ns) ∧
    (name = String.toList "test" → b.test = none →
      HotpotQA_run cb b name ns = .error (.datasetNotLoaded name) ∧
      HotpotQA_run cb b name ns = HotpotQA_run cb' b name ns) := by
  refine ⟨?_, ?_, ?_, ?_⟩
  · intro h1 h2 h3
    rw [HotpotQA_run, HotpotQA_run, if_neg h1, if_neg h2, if_neg h3]
    exact ⟨rfl, rfl⟩
  · intro h1 h2
    subst h1
    rw [HotpotQA_run, HotpotQA_run, if_pos rfl, h2]
    exact ⟨rfl, rfl⟩
  · intro h1 h2
    subst h1
    rw [HotpotQA_run, HotpotQA_run, if_neg (by decide), if_pos rfl, h2]
    exact ⟨rfl, rfl⟩
  · intro h1 h2
    subst h1
    rw [HotpotQA_run, HotpotQA_run, if_neg (by decide), if_neg (by decide),
      if_pos rfl, h2]
    exact ⟨rfl, rfl⟩

/-- Witness for `run_valueerror`: an unknown partition name and an
unloaded `validate` partition, over the trivial context type. -/
theorem run_valueerror_spot :
    HotpotQA_run (fun _ (_ : Unit) => Except.ok []) ⟨none, none, none⟩
      (String.toList "dev") none =
      .error (.unknownDataset (String.toList "dev")) ∧
    HotpotQA_run (fun _ (_ : Unit) => Except.ok []) ⟨none, none, none⟩
      (String.toList "validate") none =
      .error (.datasetNotLoaded (String.toList "validate")) :=
  ⟨((run_valueerror (fun _ (_ : Unit) => Except.ok []) (fun _ _ => Except.ok [])
      ⟨none, none, none⟩ (String.toList "dev") none).1
      (by decide) (by decide) (by decide)).1,
   ((run_valueerror (fun _ (_ : Unit) => Except.ok []) (fun _ _ => Except.ok [])
      ⟨none, none, none⟩ (String.toList "validate") none).2.2.1 rfl rfl).1⟩

/-- C7: `load_dataset` returns null for a null manifest entry and performs
no download and no file-system change in that case; for a non-null entry
it downloads exactly when the backing local file is absent or a reload is
forced (writing the downloaded content to the file path and parsing it),
and otherwise performs no download and parses the existing file. -/
theorem load_dataset_spec {J : Type} (folder : Str) (force : Bool)
    (fs : Str → Option J) (net : Str → J) :
    (load_dataset folder none force fs net = (none, fs, [])) ∧
    (∀ d : DatasetInfo, ((fs (folder ++ '/' :: d.dname)).isNone || force) = true →
      load_dataset folder (some d) force fs net =
        (some (net d.url),
         fun p => if p = folder ++ '/' :: d.dname then some (net d.url) else fs p,
         [d.url])) ∧
    (∀ d : DatasetInfo, ((fs (folder ++ '/' :: d.dname)).isNone || force) = false →
      load_dataset folder (some d) force fs net =
        (fs (folder ++ '/' :: d.dname), fs, []) ∧
      (fs (folder ++ '/' :: d.dname)).isSome = true) := by
  refine ⟨rfl, ?_, ?_⟩
  · intro d h
    rw [load_dataset]
    simp only [h, if_true]
  · intro d h
    have h' := h
    simp only [Bool.or_eq_false_iff] at h'
    rw [load_dataset]
    simp only [h, Bool.false_eq_true, if_false]
    refine ⟨by trivial, ?_⟩
    cases hfs : fs (folder ++ '/' :: d.dname)
    · rw [hfs] at h'
      simp at h'
    · rfl

/-- Witness for `load_dataset_spec`: a one-file file system, exercising
the download branch (file absent) and the no-download branch (file
present, no force). -/
theorem load_dataset_spec_spot :
    (load_dataset (String.toList "dir") (some ⟨String.toList "f", String.toList "u"⟩)
      false (fun _ => (none : Option Nat)) (fun _ => 7)).2.2 =
      [String.toList "u"] ∧
    (load_dataset (String.toList "dir") (some ⟨String.toList "f", String.toList "u"⟩)
      false (fun _ => (some 5 : Option Nat)) (fun _ => 7)).2.2 = [] := by
  constructor
  · rw [(load_dataset_spec (String.toList "dir") false (fun _ => (none : Option Nat))
      (fun _ => 7)).2.1 ⟨String.toList "f", String.toList "u"⟩ (by decide)]
  · rw [((load_dataset_spec (String.toList "dir") false (fun _ => (some 5 : Option Nat))
      (fun _ => 7)).2.2 ⟨String.toList "f", String.toList "u"⟩ (by decide)).1]

end RunErrorFacts

section ModelFacts

lemma load_hit {P : Type} [DecidableEq P] (model : Str) (p : P)
    (fs : P → Option FileData) (σ : CacheState P) (c : LLMConfig)
    (h : σ.instCache p model = some c) :
    LLMConfig_load model p fs σ = .ok (c, σ) := by
  rw [LLMConfig_load, h]

lemma load_caches {P : Type} [DecidableEq P] {model : Str} {p : P}
    {fs : P → Option FileData} {σ : CacheState P} {c : LLMConfig}
    {σ' : CacheState P}
    (h : LLMConfig_load model p fs σ = .ok (c, σ')) :
    σ'.instCache p model = some c := by
  rw [LLMConfig_load] at h
  cases hic : σ.instCache p model
  case some inst =>
    rw [hic] at h
    simp only [Except.ok.injEq, Prod.mk.injEq] at h
    obtain ⟨rfl, rfl⟩ := h
    exact hic
  case none =>
    rw [hic] at h
    cases hfs : fs p
    case none => rw [hfs] at h; simp at h
    case some current =>
      rw [hfs] at h
      simp only at h
      cases hdm : (match σ.fileCache p with
        | some d => d
        | none => current) model
      case none => rw [hdm] at h; simp at h
      case some entry =>
        rw [hdm] at h
        simp only [Except.ok.injEq, Prod.mk.injEq] at h
        obtain ⟨rfl, rfl⟩ := h
        simp

lemma load_succeeds {P : Type} [DecidableEq P] (model : Str) (p : P)
    (fs : P → Option FileData) (content : FileData) (entry : ConfigEntry)
    (hfile : fs p = some content) (hmodel : content model = some entry) :
    ∃ c σ', LLMConfig_load model p fs (emptyCache P) = .ok (c, σ') := by
  simp only [LLMConfig_load, emptyCache, hfile, hmodel]
  exact ⟨_, _, rfl⟩

/-- C3: from empty caches, a first `load` for a model key present in the
file at path `p` succeeds; a second identical `load` returns the very
cached instance with the cache state unchanged; and a third `load` after
the underlying file changed arbitrarily (any `fs'`, including deleting
the file) still returns the original stale cached instance. -/
theorem llmconfig_load_cache_stale {P : Type} [DecidableEq P] (model : Str)
    (p : P) (fs : P → Option FileData) (content : FileData)
    (entry : ConfigEntry) (hfile : fs p = some content)
    (hmodel : content model = some entry) :
    ∃ c σ', LLMConfig_load model p fs (emptyCache P) = .ok (c, σ') ∧
      LLMConfig_load model p fs σ' = .ok (c, σ') ∧
      ∀ fs' : P → Option FileData, LLMConfig_load model p fs' σ' = .ok (c, σ') := by
  obtain ⟨c, σ', h1⟩ := load_succeeds model p fs content entry hfile hmodel
  have h2 : σ'.instCache p model = some c := load_caches h1
  exact ⟨c, σ', h1, load_hit model p fs σ' c h2,
    fun fs' => load_hit model p fs' σ' c h2⟩

/-- Witness for `llmconfig_load_cache_stale` at a one-model configuration
file with natural numbers as paths. -/
theorem llmconfig_load_cache_stale_spot :
    ∃ c σ', LLMConfig_load (String.toList "m") (0 : Nat)
      (fun q => if q = 0 then
        some (fun k => if k = String.toList "m" then
          some ⟨some (String.toList "ollama"), none, none, none, none, none⟩
        else none)
      else none) (emptyCache Nat) = .ok (c, σ') ∧
      LLMConfig_load (String.toList "m") (0 : Nat)
        (fun q => if q = 0 then
          some (fun k => if k = String.toList "m" then
            some ⟨some (String.toList "ollama"), none, none, none, none, none⟩
          else none)
        else none) σ' = .ok (c, σ') ∧
      ∀ fs' : Nat → Option FileData,
        LLMConfig_load (String.toList "m") (0 : Nat) fs' σ' = .ok (c, σ') :=
  llmconfig_load_cache_stale (String.toList "m") 0 _
    (fun k => if k = String.toList "m" then
      some ⟨some (String.toList "ollama"), none, none, none, none, none⟩
    else none)
    ⟨some (String.toList "ollama"), none, none, none, none, none⟩
    rfl rfl

/-- C4: after `register_provider(S, C)`, creating a model whose configured
provider equals `S` up to lower-casing returns an instance of `C` (not of
the default fallback); and when the configured provider is absent from the
registry, the factory returns the OpenAI-compatible adapter. -/
theorem provider_dispatch {P : Type} [inst : DecidableEq P]
    (reg : Str → Option ClientKind) (model : Str) (p : P)
    (fs : P → Option FileData) (σ : CacheState P) (cfg : LLMConfig)
    (σ' : CacheState P)
    (hload : LLMConfig_load model p fs σ = .ok (cfg, σ')) :
    (∀ (providerName : Str) (C : ClientKind),
      lower cfg.provider = lower providerName →
      AsyncLLM_new (register_provider reg providerName C) model p fs σ =
        .ok (C, cfg, σ')) ∧
    (reg (lower cfg.provider) = none →
      AsyncLLM_new reg model p fs σ = .ok (ClientKind.openai, cfg, σ')) := by
  constructor
  · intro providerName C hmatch
    rw [AsyncLLM_new, hload]
    simp only [register_provider, hmatch, if_pos rfl]
    rfl
  · intro habsent
    rw [AsyncLLM_new, hload]
    simp only [habsent]
    rfl

/-- Witness for `provider_dispatch`: a pre-cached configuration whose
provider is `x`; registering `X` (case-insensitively equal) dispatches to
the registered class, and the empty registry falls back to the OpenAI
adapter. -/
theorem provider_dispatch_spot :
    AsyncLLM_new (register_provider (fun _ => none) ['X'] (ClientKind.custom 7))
      ['m'] (0 : Nat) (fun _ => none)
      ⟨fun _ => none, fun q k => if q = 0 ∧ k = ['m'] then
        some ⟨['m'], ['x'], [], [], [], 1⟩ else none⟩ =
      .ok (ClientKind.custom 7, ⟨['m'], ['x'], [], [], [], 1⟩,
        ⟨fun _ => none, fun q k => if q = 0 ∧ k = ['m'] then
          some ⟨['m'], ['x'], [], [], [], 1⟩ else none⟩) ∧
    AsyncLLM_new (fun _ => none) ['m'] (0 : Nat) (fun _ => none)
      ⟨fun _ => none, fun q k => if q = 0 ∧ k = ['m'] then
        some ⟨['m'], ['x'], [], [], [], 1⟩ else none⟩ =
      .ok (ClientKind.openai, ⟨['m'], ['x'], [], [], [], 1⟩,
        ⟨fun _ => none, fun q k => if q = 0 ∧ k = ['m'] then
          some ⟨['m'], ['x'], [], [], [], 1⟩ else none⟩) := by
  have hload : LLMConfig_load ['m'] (0 : Nat) (fun _ => none)
      ⟨fun _ => none, fun q k => if q = 0 ∧ k = ['m'] then
        some ⟨['m'], ['x'], [], [], [], 1⟩ else none⟩ =
      .ok (⟨['m'], ['x'], [], [], [], 1⟩,
        ⟨fun _ => none, fun q k => if q = 0 ∧ k = ['m'] then
          some ⟨['m'], ['x'], [], [], [], 1⟩ else none⟩) :=
    load_hit ['m'] 0 (fun _ => none)
      ⟨fun _ => none, fun q k => if q = 0 ∧ k = ['m'] then
        some ⟨['m'], ['x'], [], [], [], 1⟩ else none⟩
      ⟨['m'], ['x'], [], [], [], 1⟩ rfl
  exact ⟨(provider_dispatch (fun _ => none) ['m'] 0 (fun _ => none) _ _ _ hload).1
      ['X'] (ClientKind.custom 7) (by decide),
    (provider_dispatch (fun _ => none) ['m'] 0 (fun _ => none) _ _ _ hload).2 rfl⟩

end ModelFacts

section RetryFacts

/-- C5: for the shared 3-attempt retry wrapper of the provider clients'
invoke operations: if every underlying attempt raises, at most 3 attempts
are made and the exception of the third (final) attempt is re-raised
unchanged; if the first successful attempt is among the first 3, its
result is returned; and the outcome only ever depends on the first 3
attempts (no further attempts are consulted). -/
theorem invoke_retry_spec {E A : Type} (f g : Nat → Except E A) :
    (∀ err : Nat → E, (∀ i, f i = .error (err i)) →
      invokeWithRetry f = .error (err 2)) ∧
    (∀ (j : Nat) (a : A), j < 3 → f j = .ok a →
      (∀ k, k < j → ∃ e, f k = .error e) → invokeWithRetry f = .ok a) ∧
    ((∀ i, i < 3 → f i = g i) → invokeWithRetry f = invokeWithRetry g) := by
  have hf : invokeWithRetry f = (match f 0 with
      | .ok a => .ok a
      | .error _ => match f 1 with
        | .ok a => .ok a
        | .error _ => f 2) := rfl
  have hg : invokeWithRetry g = (match g 0 with
      | .ok a => .ok a
      | .error _ => match g 1 with
        | .ok a => .ok a
        | .error _ => g 2) := rfl
  refine ⟨?_, ?_, ?_⟩
  · intro err h
    rw [hf]
    simp only [h 0, h 1, h 2]
  · intro j a hj hok hprev
    rcases j with _ | _ | _ | j
    · rw [hf]
      simp only [hok]
    · obtain ⟨e0, h0⟩ := hprev 0 (by omega)
      rw [hf]
      simp only [h0, hok]
    · obtain ⟨e0, h0⟩ := hprev 0 (by omega)
      obtain ⟨e1, h1⟩ := hprev 1 (by omega)
      rw [hf]
      simp only [h0, h1, hok]
    · omega
  · intro hfg
    rw [hf, hg, hfg 0 (by omega), hfg 1 (by omega), hfg 2 (by omega)]

/-- Witness for `invoke_retry_spec`: an always-failing call, an
immediately succeeding call, and two call sequences agreeing on the first
three attempts. -/
theorem invoke_retry_spec_spot :
    invokeWithRetry (fun i => (Except.error i : Except Nat Nat)) = .error 2 ∧
    invokeWithRetry (fun _ => (Except.ok 5 : Except Nat Nat)) = .ok 5 ∧
    invokeWithRetry (fun i => (Except.error i : Except Nat Nat)) =
      invokeWithRetry (fun i => (Except.error (i % 3) : Except Nat Nat)) :=
  ⟨(invoke_retry_spec (fun i => (Except.error i : Except Nat Nat))
      (fun i => (Except.error i : Except Nat Nat))).1 (fun i => i) (fun _ => rfl),
   (invoke_retry_spec (fun _ => (Except.ok 5 : Except Nat Nat))
      (fun _ => (Except.ok 5 : Except Nat Nat))).2.1 0 5 (by omega) rfl
      (fun k hk => absurd hk (Nat.not_lt_zero k)),
   (invoke_retry_spec (fun i => (Except.error i : Except Nat Nat))
      (fun i => (Except.error (i % 3) : Except Nat Nat))).2.2
      (fun i hi => by rw [Nat.mod_eq_of_lt hi])⟩

end RetryFacts

section OllamaEnvFacts

/-- The claim id C9 states that the Ollama client constructor appends
`localhost` and `127.0.0.1` to any existing non-empty `NO_PROXY` list.
It is false on the code: when either loopback name already occurs as a
substring of the current value, nothing is appended at all.  Here
`NO_PROXY` is `127.0.0.1`: the code leaves it unchanged (in particular
`localhost` is never added), while the claimed appending would produce
`127.0.0.1,localhost,127.0.0.1`. -/
theorem ollama_no_proxy_counterexample :
    ollamaInitEnv (fun k => if k = String.toList "NO_PROXY" then
        some (String.toList "127.0.0.1") else none) (String.toList "NO_PROXY") =
      some (String.toList "127.0.0.1") ∧
    some (String.toList "127.0.0.1") ≠
      some (String.toList "127.0.0.1,localhost,127.0.0.1") ∧
    containsSub (String.toList "localhost")
      ((ollamaInitEnv (fun k => if k = String.toList "NO_PROXY" then
          some (String.toList "127.0.0.1") else none)
        (String.toList "NO_PROXY")).getD []) = false := by
  refine ⟨?_, by decide, ?_⟩ <;> decide

/-- C9 (amended): constructing the Ollama client without an injected
client appends `localhost` and `127.0.0.1` to the existing `NO_PROXY`
list (preserving its non-empty entries rather than overwriting them), but
only when neither `localhost` nor `127.0.0.1` already occurs as a
substring of the current value; otherwise the environment is left
entirely unchanged.  Environment variables other than `NO_PROXY` are
never modified. -/
theorem ollama_no_proxy_spec (env : Str → Option Str) :
    (containsSub (String.toList "localhost")
        ((env (String.toList "NO_PROXY")).getD []) = false →
     containsSub (String.toList "127.0.0.1")
        ((env (String.toList "NO_PROXY")).getD []) = false →
      ollamaInitEnv env (String.toList "NO_PROXY") =
        some (joinSep ','
          (((((env (String.toList "NO_PROXY")).getD []).splitOn ',').filter
              (fun e => !e.isEmpty)) ++
            [String.toList "localhost", String.toList "127.0.0.1"])) ∧
      (∀ k, k ≠ String.toList "NO_PROXY" → ollamaInitEnv env k = env k)) ∧
    ((containsSub (String.toList "localhost")
        ((env (String.toList "NO_PROXY")).getD []) = true ∨
      containsSub (String.toList "127.0.0.1")
        ((env (String.toList "NO_PROXY")).getD []) = true) →
      ollamaInitEnv env = env) := by
  constructor
  · intro h1 h2
    simp only [ollamaInitEnv, h1, h2, Bool.not_false, Bool.and_self, if_true]
    refine ⟨by simp, fun k hk => ?_⟩
    exact if_neg (by simpa using hk)
  · intro h
    have hcond : (!containsSub (String.toList "localhost")
        ((env (String.toList "NO_PROXY")).getD []) &&
        !containsSub (String.toList "127.0.0.1")
        ((env (String.toList "NO_PROXY")).getD [])) = false := by
      rcases h with h | h <;> simp_all
    simp only [ollamaInitEnv, hcond, Bool.false_eq_true, if_false]

/-- Witness for `ollama_no_proxy_spec`: an existing non-empty NO_PROXY
list gets the two loopback entries appended, and a value already
containing `127.0.0.1` is left unchanged. -/
theorem ollama_no_proxy_spec_spot :
    ollamaInitEnv (fun k => if k = String.toList "NO_PROXY" then
        some (String.toList "example.com") else none) (String.toList "NO_PROXY") =
      some (String.toList "example.com,localhost,127.0.0.1") ∧
    ollamaInitEnv (fun k => if k = String.toList "NO_PROXY" then
        some (String.toList "127.0.0.1") else none) =
      (fun k => if k = String.toList "NO_PROXY" then
        some (String.toList "127.0.0.1") else none) := by
  constructor
  · rw [((ollama_no_proxy_spec (fun k => if k = String.toList "NO_PROXY" then
        some (String.toList "example.com") else none)).1 (by decide) (by decide)).1]
    decide
  · exact (ollama_no_proxy_spec (fun k => if k = String.toList "NO_PROXY" then
      some (String.toList "127.0.0.1") else none)).2 (Or.inr (by decide))

end OllamaEnvFacts
